import Mathlib

/-!
Verification of the sharding-layout simulator and parameter conversion in
`colossalai/tensor/utils.py`.

A dimension pairing is `(tensor_dimension_index, shard_list)`: the Python
`target_pair (Tuple[int, List[int]])`.  Shard lists are ordered sequences of
mesh-axis identifiers; we embed them as `List Int` (Python integers), and
pairings as `Nat × List Int`.  The layout-legality invariant is that a shard
list is strictly increasing, i.e. `List.Chain' (· < ·)`.
-/

namespace ColossalAI

/-- Embedding of `all_gather_simulator`: ignores the dimension index and
returns `shard_list[:-1]`, i.e. the shard list with its last element removed. -/
def all_gather_simulator (target_pair : Nat × List Int) : List Int :=
  let shard_list := target_pair.2
  shard_list.dropLast

/-- Embedding of `all_to_all_simulator` at the level of returned values:
if the back shard list is empty, the back list is extended with the front list
and the front becomes empty; otherwise the front list is extended with the back
list and the back becomes empty.  (The in-place aliasing of the Python lists is
modelled separately by `all_to_all_simulator_alias`.) -/
def all_to_all_simulator (f_target_pair b_target_pair : Nat × List Int) :
    List Int × List Int :=
  let f_shard_list := f_target_pair.2
  let b_shard_list := b_target_pair.2
  if b_shard_list.length = 0 then
    (([] : List Int), b_shard_list ++ f_shard_list)
  else
    (f_shard_list ++ b_shard_list, ([] : List Int))

/-- Embedding of `shard_simulator`: for each `dim` in `legal_sharding_dims`,
skip it when the shard list is non-empty and `dim <= shard_list[-1]`; otherwise
append `shard_list + [dim]` to the accumulated result list. -/
def shard_simulator (target_pair : Nat × List Int) (legal_sharding_dims : List Int) :
    List (List Int) :=
  let shard_list := target_pair.2
  legal_sharding_dims.foldl
    (fun shard_list_list dim =>
      if shard_list.length ≠ 0 ∧ dim ≤ shard_list.getLast! then
        shard_list_list
      else
        shard_list_list ++ [shard_list ++ [dim]])
    []

/-- Read a Python list object out of a store of list objects (index = object
identity); absent references read as the empty list. -/
def readRef (store : List (List Int)) (r : Nat) : List Int :=
  store.getD r []

/-- Overwrite the list object at a reference, modelling in-place mutation of a
Python list. -/
def writeRef (store : List (List Int)) (r : Nat) (l : List Int) : List (List Int) :=
  store.set r l

/-- Store-passing embedding of `all_to_all_simulator` that makes the Python
list aliasing explicit.  `f_ref` and `b_ref` are the identities of the two
caller-supplied shard-list objects.  `b_shard_list.extend(f_shard_list)` and
`f_shard_list.extend(b_shard_list)` mutate the referenced object in place;
the assignments `f_shard_list = []` and `b_shard_list = []` only rebind the
local variable to a fresh empty list.  The returned pair is the pair of values
of the local variables at the `return` statement. -/
def all_to_all_simulator_alias (store : List (List Int)) (f_ref b_ref : Nat) :
    (List Int × List Int) × List (List Int) :=
  let f_shard_list := readRef store f_ref
  let b_shard_list := readRef store b_ref
  if b_shard_list.length = 0 then
    let store1 := writeRef store b_ref (b_shard_list ++ f_shard_list)
    ((([] : List Int), readRef store1 b_ref), store1)
  else
    let store1 := writeRef store f_ref (f_shard_list ++ b_shard_list)
    ((readRef store1 f_ref, ([] : List Int)), store1)

/-- A module attribute value, as far as `convert_parameter` inspects it:
a plain `torch.Tensor` (with its contiguity), a `ColoTensor` wrapper, or any
non-tensor value.  Modelled from the spec: `ColoTensor`
(colossalai/tensor/colo_tensor.py is not part of the excerpt) is the wrapped
distributed-tensor handle produced from a plain tensor; per the spec it is a
distinct handle type, not itself a plain tensor. -/
inductive Value where
  | tensor (contiguous : Bool)
  | coloTensor (contiguous : Bool)
  | other
deriving DecidableEq

/-- The `isinstance(x, torch.Tensor)` check of `convert_parameter`. -/
def Value.isTensor : Value → Bool
  | .tensor _ => true
  | _ => false

/-- The `x.is_contiguous()` check of `convert_parameter` (only ever reached on
plain tensors). -/
def Value.is_contiguous : Value → Bool
  | .tensor c => c
  | .coloTensor c => c
  | .other => false

/-- A module's attribute table: an association list from attribute names to
values, in insertion order (a Python object's `__dict__` has unique keys). -/
abbrev ModuleState := List (String × Value)

/-- Embedding of Python `getattr`: the value of the first binding of the name,
if any. -/
def getattr (m : ModuleState) (n : String) : Option Value :=
  (m.find? (fun p => p.1 == n)).map Prod.snd

/-- Embedding of Python `hasattr`: whether `getattr` succeeds. -/
def hasattr (m : ModuleState) (n : String) : Bool :=
  (getattr m n).isSome

/-- Embedding of Python `delattr`: remove the binding of the name. -/
def delattr (m : ModuleState) (n : String) : ModuleState :=
  m.eraseP (fun p => p.1 == n)

/-- Embedding of Python `setattr`: overwrite the existing binding, else append
a new one at the end (dict insertion-order semantics). -/
def setattr (m : ModuleState) (n : String) (v : Value) : ModuleState :=
  if (getattr m n).isSome then
    m.map (fun p => if p.1 == n then (n, v) else p)
  else
    m ++ [(n, v)]

/-- Embedding of `_convert_tensor`: wrap a tensor into a `ColoTensor` handle
(the wrapper shares the tensor's storage, hence its contiguity). -/
def _convert_tensor (v : Value) : Value :=
  Value.coloTensor v.is_contiguous

/-- The three validation failures of `convert_parameter`.  In the source all
three are `ValueError`s with distinct messages; the spec names them
`MissingAttribute`, `TypeMismatch` and `NotContiguous`. -/
inductive ConvertError where
  | missingAttribute
  | typeMismatch
  | notContiguous
deriving DecidableEq

/-- Embedding of `convert_parameter` in state-passing style: a raised
`ValueError` leaves the module as it was; success replaces the attribute by
`delattr` followed by `setattr` of the wrapped tensor.  The `hasattr` guard of
the source is the `none` branch (`hasattr` is exactly `getattr` succeeding). -/
def convert_parameter (module : ModuleState) (param_name : String) :
    Except ConvertError Unit × ModuleState :=
  match getattr module param_name with
  | none => (.error .missingAttribute, module)
  | some tensor =>
    if tensor.isTensor = false then
      (.error .typeMismatch, module)
    else if tensor.is_contiguous = false then
      (.error .notContiguous, module)
    else
      let st := _convert_tensor tensor
      (.ok (), setattr (delattr module param_name) param_name st)

/-- Number of bindings of a name in a module's attribute table. -/
def attr_count (m : ModuleState) (n : String) : Nat :=
  m.countP (fun p => p.1 == n)

theorem getLast!_eq_getLast (l : List Int) (h : l ≠ []) : l.getLast! = l.getLast h :=
  List.getLast!_of_getLast? (List.getLast?_eq_getLast l h)

theorem shard_simulator_foldl (sl dims : List Int) (acc : List (List Int)) :
    dims.foldl
      (fun shard_list_list dim =>
        if sl.length ≠ 0 ∧ dim ≤ sl.getLast! then shard_list_list
        else shard_list_list ++ [sl ++ [dim]]) acc
      = acc ++ (dims.filter (fun d => decide (sl = [] ∨ sl.getLast! < d))).map
          (fun d => sl ++ [d]) := by
  induction dims generalizing acc with
  | nil => simp
  | cons d ds ih =>
    rw [List.foldl_cons]
    by_cases hc : sl.length ≠ 0 ∧ d ≤ sl.getLast!
    · have hd : decide (sl = [] ∨ sl.getLast! < d) = false := by
        simp only [decide_eq_false_iff_not, not_or, not_lt]
        exact ⟨fun he => hc.1 (by simp [he]), hc.2⟩
      rw [if_pos hc, ih, List.filter_cons_of_neg (by simp [hd])]
    · have hd : decide (sl = [] ∨ sl.getLast! < d) = true := by
        simp only [decide_eq_true_eq]
        by_cases hsl : sl = []
        · exact Or.inl hsl
        · refine Or.inr ?_
          rcases not_and_or.1 hc with hlen | hle
          · exact absurd (fun hz => hsl (List.length_eq_zero.1 hz)) hlen
          · exact lt_of_not_le hle
      rw [if_neg hc, ih, List.filter_cons_of_pos (by simp [hd]), List.map_cons]
      simp [List.append_assoc]

theorem shard_simulator_eq (i : Nat) (sl dims : List Int) :
    shard_simulator (i, sl) dims
      = (dims.filter (fun d => decide (sl = [] ∨ sl.getLast! < d))).map
          (fun d => sl ++ [d]) := by
  unfold shard_simulator
  simpa using shard_simulator_foldl sl dims []

theorem chain'_lt_pair (a b : Int) (h : a < b) : List.Chain' (· < ·) [a, b] :=
  List.chain'_cons.2 ⟨h, List.chain'_singleton b⟩

theorem chain'_append_candidate (sl : List Int) (d : Int)
    (h : List.Chain' (· < ·) sl) (hd : sl = [] ∨ sl.getLast! < d) :
    List.Chain' (· < ·) (sl ++ [d]) := by
  by_cases hsl : sl = []
  · subst hsl; simp
  · rcases hd with he | hlt
    · exact absurd he hsl
    · refine List.chain'_append.2 ⟨h, List.chain'_singleton d, ?_⟩
      intro x hx y hy
      rw [List.getLast?_eq_getLast sl hsl] at hx
      simp only [Option.mem_def, Option.some_inj, List.head?_cons] at hx hy
      subst hx; subst hy
      rwa [getLast!_eq_getLast sl hsl] at hlt

/-- C1: for a strictly-increasing shard list, shard_simulator returns exactly
the list of shard_list plus dim for each dim of legal_sharding_dims satisfying
the ordering predicate (any dim when the shard list is empty, else dim greater
than the last element), in the same relative order; every output element is
strictly increasing, the output length is the number of candidates satisfying
the predicate, and shard_simulator((0,[0]),[0,1,2]) = [[0,1],[0,2]]. -/
theorem shard_simulator_spec (i : Nat) (sl dims : List Int)
    (h : List.Chain' (· < ·) sl) :
    shard_simulator (i, sl) dims
        = (dims.filter (fun d => decide (sl = [] ∨ sl.getLast! < d))).map
            (fun d => sl ++ [d])
    ∧ (∀ l ∈ shard_simulator (i, sl) dims, List.Chain' (· < ·) l)
    ∧ (shard_simulator (i, sl) dims).length
        = (dims.filter (fun d => decide (sl = [] ∨ sl.getLast! < d))).length
    ∧ shard_simulator (0, [0]) [0, 1, 2] = [[0, 1], [0, 2]] := by
  refine ⟨shard_simulator_eq i sl dims, ?_, by rw [shard_simulator_eq]; simp, by decide⟩
  intro l hl
  rw [shard_simulator_eq] at hl
  rcases List.mem_map.1 hl with ⟨d, hd, rfl⟩
  exact chain'_append_candidate sl d h (of_decide_eq_true ((List.mem_filter.1 hd).2))

/-- Witness for C1 at the concrete input of the claim. -/
theorem shard_simulator_spec_witness :
    shard_simulator (0, [0]) [0, 1, 2] = [[0, 1], [0, 2]] :=
  (shard_simulator_spec 0 [0] [0, 1, 2] (List.chain'_singleton 0)).2.2.2

/-- C2: on a non-empty strictly-increasing shard list, all_gather_simulator
returns the input with its last element removed, the result is still strictly
increasing, and all_gather_simulator((0,[0,1])) = [0],
all_gather_simulator((0,[0])) = []. -/
theorem all_gather_simulator_spec (i : Nat) (sl : List Int)
    (hne : sl ≠ []) (hinc : List.Chain' (· < ·) sl) :
    all_gather_simulator (i, sl) ++ [sl.getLast hne] = sl
    ∧ all_gather_simulator (i, sl) = sl.dropLast
    ∧ List.Chain' (· < ·) (all_gather_simulator (i, sl))
    ∧ all_gather_simulator (0, [0, 1]) = [0]
    ∧ all_gather_simulator (0, [0]) = [] := by
  refine ⟨List.dropLast_concat_getLast hne, rfl, ?_, by decide, by decide⟩
  exact hinc.prefix (List.dropLast_prefix sl)

/-- Witness for C2 at the concrete input of the claim. -/
theorem all_gather_simulator_spec_witness :
    all_gather_simulator (0, [0, 1]) ++ [([0, 1] : List Int).getLast (by decide)] = [0, 1] :=
  (all_gather_simulator_spec 0 [0, 1] (by decide) (chain'_lt_pair 0 1 (by norm_num))).1

/-- C4: every element of shard_simulator's output on a strictly-increasing
shard list is a non-empty strictly-increasing list, hence a valid input to
all_gather_simulator, and all_gather_simulator on it (under any dimension
index) returns the original shard list. -/
theorem gather_undoes_shard (i j : Nat) (sl dims : List Int)
    (h : List.Chain' (· < ·) sl) (l : List Int)
    (hl : l ∈ shard_simulator (i, sl) dims) :
    l ≠ [] ∧ List.Chain' (· < ·) l ∧ all_gather_simulator (j, l) = sl := by
  rw [shard_simulator_eq] at hl
  rcases List.mem_map.1 hl with ⟨d, hd, rfl⟩
  refine ⟨by simp, ?_, ?_⟩
  · exact chain'_append_candidate sl d h (of_decide_eq_true ((List.mem_filter.1 hd).2))
  · unfold all_gather_simulator
    simp [List.dropLast_concat]

/-- Witness for C4: the round trip at shard_list [0], candidate output [0,1]. -/
theorem gather_undoes_shard_witness :
    ([0, 1] : List Int) ≠ [] ∧ List.Chain' (· < ·) ([0, 1] : List Int)
    ∧ all_gather_simulator (1, [0, 1]) = [0] :=
  gather_undoes_shard 0 1 [0] [0, 1, 2] (List.chain'_singleton 0) [0, 1] (by decide)

/-- C3: all_to_all_simulator moves the whole axis sequence to one side: it
returns the empty front together with the front's former axes when the back
shard list is empty, and the concatenation front ++ back together with an empty
back otherwise; in particular all_to_all_simulator((0,[0,1]),(1,[])) = ([],[0,1])
and all_to_all_simulator((0,[]),(1,[1])) = ([1],[]). -/
theorem all_to_all_simulator_spec (fp bp : Nat × List Int) :
    all_to_all_simulator fp bp =
      (if bp.2 = [] then (([] : List Int), fp.2) else (fp.2 ++ bp.2, ([] : List Int)))
    ∧ all_to_all_simulator (0, [0, 1]) (1, []) = ([], [0, 1])
    ∧ all_to_all_simulator (0, []) (1, [1]) = ([1], []) := by
  refine ⟨?_, by decide, by decide⟩
  unfold all_to_all_simulator
  rcases bp with ⟨j, b⟩
  cases b <;> simp

/-- C9: when both shard lists are non-empty, all_to_all_simulator does not
fail and returns the concatenation of the front's axes with the back's axes
together with an empty back, even when that concatenation is not strictly
increasing, i.e. even when the result violates the layout-legality invariant. -/
theorem all_to_all_simulator_both_nonempty (fp bp : Nat × List Int)
    (_hf : fp.2 ≠ []) (hb : bp.2 ≠ []) :
    all_to_all_simulator fp bp = (fp.2 ++ bp.2, [])
    ∧ all_to_all_simulator (0, [1]) (1, [0]) = ([1, 0], [])
    ∧ ¬ List.Chain' (· < ·) [(1 : Int), 0] := by
  refine ⟨?_, by decide, fun hc => absurd (List.chain'_cons.1 hc).1 (by norm_num)⟩
  unfold all_to_all_simulator
  rcases bp with ⟨j, b⟩
  cases b
  · exact absurd rfl hb
  · simp

/-- Witness for C9 at a concrete pair of non-empty shard lists whose
concatenation is decreasing. -/
theorem all_to_all_simulator_both_nonempty_witness :
    all_to_all_simulator (0, [1]) (1, [0]) = ([1, 0], []) :=
  (all_to_all_simulator_both_nonempty (0, [1]) (1, [0]) (by decide) (by decide)).2.1

theorem readRef_writeRef_self (store : List (List Int)) (r : Nat) (l : List Int)
    (h : r < store.length) : readRef (writeRef store r l) r = l := by
  simp [readRef, writeRef, List.getD, List.getElem?_set_self h]

theorem readRef_writeRef_ne (store : List (List Int)) (r s : Nat) (l : List Int)
    (h : r ≠ s) : readRef (writeRef store r l) s = readRef store s := by
  simp [readRef, writeRef, List.getD, List.getElem?_set_ne h]

/-- C7: in the empty-back branch, the store-level all_to_all mutates the
caller-supplied back-list object in place: after the call, the object referred
to by b_ref holds the front's axes, while the front object itself is not
mutated (its local variable is merely rebound to a fresh empty container); and
whenever the front list is non-empty, the caller-visible back object differs
from its value before the call, so the inputs are not treated as immutable
values with freshly constructed outputs. -/
theorem all_to_all_simulator_alias_mutates (store : List (List Int)) (f_ref b_ref : Nat)
    (hb : readRef store b_ref = []) (hne : f_ref ≠ b_ref) (hlt : b_ref < store.length) :
    (all_to_all_simulator_alias store f_ref b_ref).2
        = writeRef store b_ref (readRef store f_ref)
    ∧ readRef (all_to_all_simulator_alias store f_ref b_ref).2 b_ref
        = readRef store f_ref
    ∧ (all_to_all_simulator_alias store f_ref b_ref).1 = ([], readRef store f_ref)
    ∧ readRef (all_to_all_simulator_alias store f_ref b_ref).2 f_ref
        = readRef store f_ref
    ∧ (readRef store f_ref ≠ [] →
        readRef (all_to_all_simulator_alias store f_ref b_ref).2 b_ref
          ≠ readRef store b_ref) := by
  have hread : readRef (writeRef store b_ref (readRef store f_ref)) b_ref
      = readRef store f_ref := readRef_writeRef_self store b_ref _ hlt
  have hstate : (all_to_all_simulator_alias store f_ref b_ref).2
      = writeRef store b_ref (readRef store f_ref) := by
    unfold all_to_all_simulator_alias
    rw [hb]
    simp
  refine ⟨hstate, by rw [hstate, hread], ?_, ?_, ?_⟩
  · unfold all_to_all_simulator_alias
    rw [hb]
    simp [readRef_writeRef_self store b_ref _ hlt]
  · rw [hstate]
    exact readRef_writeRef_ne store b_ref f_ref _ fun he => hne he.symm
  · intro hf
    rw [hstate, hread, hb]
    exact hf

/-- Witness for C7: a two-object store where the back list starts empty and
ends holding the front's axes. -/
theorem all_to_all_simulator_alias_mutates_witness :
    readRef (all_to_all_simulator_alias [[7], []] 0 1).2 1 = readRef [[7], []] 0 :=
  (all_to_all_simulator_alias_mutates [[7], []] 0 1 (by decide) (by decide) (by decide)).2.1

/-- C8: on a pairing whose shard list is empty (a fully replicated dimension),
all_gather_simulator does not fail and returns the empty list, mapping the
replicated layout to itself. -/
theorem all_gather_simulator_replicated (i : Nat) :
    all_gather_simulator (i, ([] : List Int)) = [] := rfl

/-- C10: the results of all three simulators depend only on the shard lists,
never on the tensor-dimension index carried in the first component of a
pairing. -/
theorem simulators_ignore_dim_index (i j i2 j2 : Nat) (sl f b dims : List Int) :
    all_gather_simulator (i, sl) = all_gather_simulator (j, sl)
    ∧ all_to_all_simulator (i, f) (i2, b) = all_to_all_simulator (j, f) (j2, b)
    ∧ shard_simulator (i, sl) dims = shard_simulator (j, sl) dims :=
  ⟨rfl, rfl, rfl⟩

theorem getattr_cons (k : String) (v : Value) (m : ModuleState) (n : String) :
    getattr ((k, v) :: m) n = if k == n then some v else getattr m n := by
  unfold getattr
  rw [List.find?_cons]
  cases h : (k == n) <;> simp [h]

theorem getattr_eq_none_of_not_mem (m : ModuleState) (n : String)
    (h : n ∉ m.map Prod.fst) : getattr m n = none := by
  induction m with
  | nil => rfl
  | cons p m ih =>
    rcases p with ⟨k, v⟩
    simp only [List.map_cons, List.mem_cons, not_or] at h
    rw [getattr_cons, if_neg (by simp [Ne.symm h.1]), ih h.2]

theorem getattr_delattr_ne (m : ModuleState) (name n : String) (h : n ≠ name) :
    getattr (delattr m name) n = getattr m n := by
  induction m with
  | nil => rfl
  | cons p m ih =>
    rcases p with ⟨k, v⟩
    by_cases hk : k = name
    · rw [delattr, List.eraseP_cons_of_pos (by simp [hk]), getattr_cons,
        if_neg (by simp [hk, Ne.symm h])]
    · rw [delattr, List.eraseP_cons_of_neg (by simp [hk]), getattr_cons, getattr_cons]
      cases hkn : (k == n)
      · simpa using ih
      · simp

theorem getattr_delattr_self (m : ModuleState) (name : String)
    (hnd : (m.map Prod.fst).Nodup) : getattr (delattr m name) name = none := by
  induction m with
  | nil => rfl
  | cons p m ih =>
    rcases p with ⟨k, v⟩
    simp only [List.map_cons, List.nodup_cons] at hnd
    by_cases hk : k = name
    · rw [delattr, List.eraseP_cons_of_pos (by simp [hk])]
      exact getattr_eq_none_of_not_mem m name (hk ▸ hnd.1)
    · rw [delattr, List.eraseP_cons_of_neg (by simp [hk]), getattr_cons,
        if_neg (by simp [hk])]
      exact ih hnd.2

theorem getattr_append (m1 m2 : ModuleState) (n : String) :
    getattr (m1 ++ m2) n = (getattr m1 n).or (getattr m2 n) := by
  unfold getattr
  rw [List.find?_append]
  cases List.find? (fun p => p.1 == n) m1 <;> simp [Option.or]

theorem setattr_of_getattr_none (m : ModuleState) (n : String) (v : Value)
    (h : getattr m n = none) : setattr m n v = m ++ [(n, v)] := by
  rw [setattr, if_neg (by simp [h])]

theorem attr_count_eq_zero (m : ModuleState) (n : String) (h : getattr m n = none) :
    attr_count m n = 0 := by
  induction m with
  | nil => rfl
  | cons p m ih =>
    rcases p with ⟨k, v⟩
    rw [getattr_cons] at h
    cases hk : (k == n)
    · rw [if_neg (by simp [hk])] at h
      rw [attr_count, List.countP_cons]
      simp only [hk]
      simpa [attr_count] using ih h
    · rw [if_pos (by simp [hk])] at h
      exact absurd h (by simp)

/-- C5: convert_parameter fails with MissingAttribute exactly when the module
has no attribute of the given name, with TypeMismatch exactly when the
attribute exists but is not a tensor, with NotContiguous exactly when it is a
tensor whose memory layout is non-contiguous, and does not fail otherwise;
every failure is raised before any modification, leaving the module exactly as
it was. -/
theorem convert_parameter_error_spec (m : ModuleState) (name : String) :
    ((convert_parameter m name).1 = .error .missingAttribute ↔ getattr m name = none)
    ∧ (∀ v, getattr m name = some v →
        ((convert_parameter m name).1 = .error .typeMismatch ↔ v.isTensor = false))
    ∧ (∀ v, getattr m name = some v → v.isTensor = true →
        ((convert_parameter m name).1 = .error .notContiguous ↔ v.is_contiguous = false))
    ∧ (∀ v, getattr m name = some v → v.isTensor = true → v.is_contiguous = true →
        (convert_parameter m name).1 = .ok ())
    ∧ (∀ e, (convert_parameter m name).1 = .error e → (convert_parameter m name).2 = m) := by
  cases hg : getattr m name with
  | none =>
    refine ⟨by simp [convert_parameter, hg], ?_, ?_, ?_, ?_⟩
    · intro v hv
      exact Option.noConfusion hv
    · intro v hv
      exact Option.noConfusion hv
    · intro v hv
      exact Option.noConfusion hv
    · intro e _
      simp [convert_parameter, hg]
  | some v =>
    refine ⟨?_, ?_, ?_, ?_, ?_⟩ <;>
      cases ht : v.isTensor <;> cases hc : v.is_contiguous <;>
        simp [convert_parameter, hg, ht, hc]

/-- Witness for C5: a module holding one contiguous tensor converts without
error. -/
theorem convert_parameter_error_spec_witness :
    (convert_parameter [("weight", Value.tensor true)] "weight").1 = .ok () :=
  (convert_parameter_error_spec [("weight", Value.tensor true)] "weight").2.2.2.1
    (Value.tensor true) rfl rfl rfl

/-- C6: on success, convert_parameter replaces the named attribute by
remove-then-set: the resulting module binds the name to the wrapped handle of
the original tensor, binds it exactly once (never both the plain tensor and
the wrapped handle), and leaves every other attribute untouched; on any
validation failure the module is returned unchanged. -/
theorem convert_parameter_atomic (m : ModuleState) (name : String)
    (hnd : (m.map Prod.fst).Nodup) :
    (∀ m2, convert_parameter m name = (.ok (), m2) →
        (∃ v, getattr m name = some v ∧ getattr m2 name = some (_convert_tensor v))
        ∧ (∀ n, n ≠ name → getattr m2 n = getattr m n)
        ∧ attr_count m2 name = 1)
    ∧ (∀ e m2, convert_parameter m name = (.error e, m2) → m2 = m) := by
  cases hg : getattr m name with
  | none =>
    constructor
    · intro m2 h
      simp [convert_parameter, hg] at h
    · intro e m2 h
      simp only [convert_parameter, hg, Prod.mk.injEq] at h
      exact h.2.symm
  | some v =>
    constructor
    · intro m2 h
      simp only [convert_parameter, hg] at h
      by_cases ht : v.isTensor = false
      · rw [if_pos ht] at h
        exact absurd (congrArg Prod.fst h) (by simp)
      · rw [if_neg ht] at h
        by_cases hc : v.is_contiguous = false
        · rw [if_pos hc] at h
          exact absurd (congrArg Prod.fst h) (by simp)
        · rw [if_neg hc] at h
          have hm2 : m2 = setattr (delattr m name) name (_convert_tensor v) :=
            (congrArg Prod.snd h).symm
          have hdel : getattr (delattr m name) name = none :=
            getattr_delattr_self m name hnd
          have hset : setattr (delattr m name) name (_convert_tensor v)
              = delattr m name ++ [(name, _convert_tensor v)] :=
            setattr_of_getattr_none _ _ _ hdel
          refine ⟨⟨v, rfl, ?_⟩, ?_, ?_⟩
          · rw [hm2, hset, getattr_append, hdel, getattr_cons, if_pos (by simp)]
            rfl
          · intro n hn
            rw [hm2, hset, getattr_append, getattr_cons,
              if_neg (by simp [Ne.symm hn])]
            show ((getattr (delattr m name) n).or (getattr [] n)) = getattr m n
            rw [getattr_delattr_ne m name n hn]
            cases getattr m n <;> rfl
          · rw [hm2, hset, attr_count, List.countP_append]
            have h0 : attr_count (delattr m name) name = 0 :=
              attr_count_eq_zero _ _ hdel
            rw [attr_count] at h0
            rw [h0]
            simp [List.countP_cons]
    · intro e m2 h
      simp only [convert_parameter, hg] at h
      by_cases ht : v.isTensor = false
      · rw [if_pos ht] at h
        exact (congrArg Prod.snd h).symm
      · rw [if_neg ht] at h
        by_cases hc : v.is_contiguous = false
        · rw [if_pos hc] at h
          exact (congrArg Prod.snd h).symm
        · rw [if_neg hc] at h
          exact absurd (congrArg Prod.fst h) (by simp)

/-- Witness for C6: after converting the single contiguous tensor of a
one-attribute module, the attribute is bound exactly once. -/
theorem convert_parameter_atomic_witness :
    attr_count [("weight", Value.coloTensor true)] "weight" = 1 :=
  ((convert_parameter_atomic [("weight", Value.tensor true)] "weight" (by decide)).1
    [("weight", Value.coloTensor true)] rfl).2.2

end ColossalAI
